import Mathlib

/-!
# docker-hipache: Docker lifecycle events synchronised into Hipache's Redis routing table

Shallow embedding of `hipache.go` and `docker-hipache.go`, and of the parts of `main.go`, the
older single-file variant of the same program, that the statements compare them with.

* The Redis server is a `Store`: a total map from key to list of strings, the empty list
  standing for an absent key (Redis deletes a list that becomes empty, and every list command
  used here treats an absent key as the empty list).  Only the list commands the program
  issues are modelled (`DEL`, `RPUSH`, `LREM`, `LRANGE`).  Transport faults of the connection
  are outside the model, so a command always gets its reply.
* A Go `map[string]T` is a `GoMap T`: its entries, with pairwise distinct keys, listed in the
  order a `range` statement visits them.  Go leaves that order unspecified; a statement that
  quantifies over every `GoMap` covers every order.
* `error` results are `Except String _`, the string being the message.
-/

namespace DockerHipache

/-! ## `fmt.Sprintf` and `strings.Split` -/

/-- Expansion of a format over its operands, character by character.  Only the verb `%s`
occurs with operands in the sources; every operand is a string and is copied verbatim.  A verb
with no operand left renders as `%!s(MISSING)`, operands left over after the format are
reported as `%!(EXTRA string=v, ...)`, as package `fmt` does. -/
def sprintfAux : List Char → List String → List Char
  | [], [] => []
  | [], a :: args =>
    "%!(EXTRA ".data
      ++ (String.intercalate ", " ((a :: args).map fun x => "string=" ++ x)).data ++ [')']
  | '%' :: 's' :: rest, a :: args => a.data ++ sprintfAux rest args
  | '%' :: 's' :: rest, [] => "%!s(MISSING)".data ++ sprintfAux rest []
  | ch :: rest, args => ch :: sprintfAux rest args

/-- Go's `fmt.Sprintf(format, args...)` for string operands. -/
def Sprintf (format : String) (args : List String) : String :=
  ⟨sprintfAux format.data args⟩

/-- Pieces of a character sequence between occurrences of the separator `sep`; there is always
one piece more than there are separators. -/
def splitChars (sep : Char) : List Char → List (List Char)
  | [] => [[]]
  | ch :: rest =>
    if ch = sep then [] :: splitChars sep rest
    else
      match splitChars sep rest with
      | [] => [[ch]]
      | piece :: pieces => (ch :: piece) :: pieces

/-- Go's `strings.Split(s, sep)` for a separator of one character (the sources split on `":"`). -/
def Split (s : String) (sep : Char) : List String :=
  (splitChars sep s.data).map String.mk

/-! ## Go maps -/

/-- A Go `map[string]β`: entries with distinct keys, in the order `range` visits them. -/
structure GoMap (β : Type) where
  entries : List (String × β)
  nodup : (entries.map Prod.fst).Nodup

/-- Value bound to `k` in a list of entries, if any. -/
def lookupEntry {β : Type} (k : String) : List (String × β) → Option β
  | [] => none
  | e :: es => if e.1 = k then some e.2 else lookupEntry k es

/-- Entries after the assignment `m[k] = v`: the value of an existing key is replaced in
place, a new key gets a new entry. -/
def setEntry {β : Type} (k : String) (v : β) : List (String × β) → List (String × β)
  | [] => [(k, v)]
  | e :: es => if e.1 = k then (k, v) :: es else e :: setEntry k v es

namespace GoMap

/-- The empty map, `make(map[string]β)`. -/
def empty {β : Type} : GoMap β := ⟨[], List.nodup_nil⟩

/-- The lookup `v, ok := m[k]`. -/
def get? {β : Type} (m : GoMap β) (k : String) : Option β := lookupEntry k m.entries

/-- The assignment `m[k] = v`. -/
def set {β : Type} (m : GoMap β) (k : String) (v : β) : GoMap β :=
  ⟨setEntry k v m.entries, by
    have keys : ∀ es : List (String × β), (setEntry k v es).map Prod.fst
        = if k ∈ es.map Prod.fst then es.map Prod.fst else es.map Prod.fst ++ [k] := by
      intro es
      induction es with
      | nil => simp [setEntry]
      | cons e es ih =>
        by_cases h : e.1 = k
        · simp [setEntry, h]
        · have h2 : ¬ k = e.1 := fun h3 => h h3.symm
          simp only [setEntry, h, if_false, List.map_cons, ih, List.mem_cons, h2, false_or]
          split <;> simp
    rw [keys]
    split
    · exact m.nodup
    · rename_i hk
      exact List.Nodup.append m.nodup (List.nodup_singleton k) (by simpa using hk)⟩

end GoMap

/-! ## The Redis store -/

/-- Contents of the Redis server: the list held at each key, `[]` for an absent key. -/
abbrev Store := String → List String

/-- The store with the list at `key` replaced. -/
def Store.put (s : Store) (key : String) (l : List String) : Store :=
  fun k => if k = key then l else s k

/-- Removes the first `n` elements equal to `v`, scanning from the head. -/
def removeFirstN (v : String) : Nat → List String → List String
  | 0, l => l
  | _ + 1, [] => []
  | n + 1, x :: xs => if x = v then removeFirstN v n xs else x :: removeFirstN v (n + 1) xs

/-- Effect of `LREM key count v` on the list: `count > 0` removes `count` occurrences from
head to tail, `count < 0` removes `-count` occurrences from tail to head, `count = 0` removes
every occurrence. -/
def lrem (count : Int) (v : String) (l : List String) : List String :=
  if 0 < count then removeFirstN v count.toNat l
  else if count < 0 then (removeFirstN v (-count).toNat l.reverse).reverse
  else l.filter (fun x => x ≠ v)

/-- Reply of `LRANGE key start stop` on the list: the inclusive range, a negative index
counting from the end. -/
def lrange (l : List String) (start stop : Int) : List String :=
  let n : Int := l.length
  let a : Int := if start < 0 then max (n + start) 0 else start
  let b : Int := if stop < 0 then n + stop else min stop (n - 1)
  if b < a then [] else (l.drop a.toNat).take (b - a + 1).toNat

/-- The Redis commands the program issues. -/
inductive Command where
  | DEL (key : String)
  | RPUSH (key value : String)
  | LREM (key : String) (count : Int) (value : String)

/-- Effect of one command on the store. -/
def Command.apply : Command → Store → Store
  | .DEL key, s => s.put key []
  | .RPUSH key value, s => s.put key (s key ++ [value])
  | .LREM key count value, s => s.put key (lrem count value (s key))

/-- Redis `EXEC`: the commands queued by `Send` since `MULTI` are applied in order, as one unit. -/
def exec (queue : List Command) (s : Store) : Store :=
  queue.foldl (fun st cmd => cmd.apply st) s

/-! ## Data model (`docker-hipache.go`) -/

structure Event where
  ContainerId : String
  Status : String
  Image : String

structure ContainerConfig where
  Hostname : String

structure NetworkSettings where
  IpAddress : String
  PortMapping : Option (GoMap (GoMap String))

structure Container where
  Id : String
  Image : String
  Config : Option ContainerConfig
  NetworkSettings : Option NetworkSettings

structure RouteHost where
  Hostnames : List String
  Port : String

structure Config where
  RedisProto : String
  RedisAddr : String
  DockerApi : String
  Routes : GoMap RouteHost

/-- The receiver of the store operations; the connection pool is the `Store` argument. -/
structure Hipache where
  routes : GoMap RouteHost

/-- A handler, `func(c *Container) error`, acting on the store. -/
abbrev Handler := Container → Store → Except String Store

/-! ## `hipache.go` -/

/-- Key of the frontend entry of a hostname, `fmt.Sprintf("frontend:%s", hostname)`. -/
def frontendKey (hostname : String) : String := Sprintf "frontend:%s" [hostname]

/-- Backend target of a public port, `fmt.Sprintf("http://localhost:%s", publicPort)`. -/
def targetURL (publicPort : String) : String := Sprintf "http://localhost:%s" [publicPort]

/-- History record, `fmt.Sprintf("%s:%s", hostname, publicPort)`. -/
def historyEntry (hostname publicPort : String) : String :=
  Sprintf "%s:%s" [hostname, publicPort]

/-- Method `Hipache.CreateRoute`: `MULTI; DEL key; RPUSH key hostname; EXEC`. -/
def Hipache.CreateRoute (_h : Hipache) (hostname : String) (s : Store) : Except String Store :=
  let key := frontendKey hostname
  .ok (exec [.DEL key, .RPUSH key hostname] s)

/-- Function `getTcpPorts`: the `"Tcp"` entry of the port mapping, `none` for the `nil` it
returns otherwise.  (A `"Tcp"` entry that is itself a nil map is an empty `GoMap` here:
`AddRoute` does nothing on either.) -/
def getTcpPorts (c : Container) : Option (GoMap String) :=
  match c.NetworkSettings with
  | some settings =>
    match settings.PortMapping with
    | some portMapping => portMapping.get? "Tcp"
    | none => none
  | none => none

/-- Method `Hipache.containsRoute`: the rule of the container's image when its port is
`privatePort`. -/
def Hipache.containsRoute (h : Hipache) (c : Container) (privatePort : String) :
    Option RouteHost :=
  match h.routes.get? c.Image with
  | some route => if route.Port = privatePort then some route else none
  | none => none

/-- The commands `AddRoute` queues for one matching port: for every hostname of the rule, in
order, one `RPUSH` on the frontend entry and one `RPUSH` on the container's history. -/
def sendRoute (c : Container) (publicPort : String) : List String → List Command
  | [] => []
  | hostname :: rest =>
    .RPUSH (frontendKey hostname) (targetURL publicPort)
      :: .RPUSH c.Id (historyEntry hostname publicPort)
      :: sendRoute c publicPort rest

/-- The `range ports` loop of `AddRoute` over the entries still to visit. -/
def addRouteLoop (h : Hipache) (c : Container) : List (String × String) → Store → Store
  | [], s => s
  | (privatePort, publicPort) :: rest, s =>
    match h.containsRoute c privatePort with
    | some route => addRouteLoop h c rest (exec (sendRoute c publicPort route.Hostnames) s)
    | none => addRouteLoop h c rest s

/-- Method `Hipache.AddRoute`: for every port of the Tcp mapping whose private side is the
port of the image's rule, one transaction `MULTI; RPUSH ...; EXEC`. -/
def Hipache.AddRoute (h : Hipache) (c : Container) (s : Store) : Except String Store :=
  match getTcpPorts c with
  | some ports => .ok (addRouteLoop h c ports.entries s)
  | none => .ok s

/-- Method `Hipache.RemoveRoute`: the command
`LREM frontend:<hostname> -1 http://localhost:<publicPort>`. -/
def Hipache.RemoveRoute (_h : Hipache) (hostname publicPort : String) (s : Store) :
    Except String Store :=
  .ok ((Command.LREM (frontendKey hostname) (-1) (targetURL publicPort)).apply s)

/-- The loop of `FetchRoutes` over the reply still to read, `out` being the map built so
far. -/
def fetchLoop : List String → GoMap String → Except String (GoMap String)
  | [], out => .ok out
  | v :: rest, out =>
    let parts := Split v ':'
    if parts.length < 2 then .error (Sprintf "Invalid value to split: %s" [v])
    else fetchLoop rest (out.set (parts.getD 0 "") (parts.getD 1 ""))

/-- Method `Hipache.FetchRoutes`: `LRANGE c.Id 0 -1`, every element split on `":"`. -/
def Hipache.FetchRoutes (_h : Hipache) (c : Container) (s : Store) :
    Except String (GoMap String) :=
  fetchLoop (lrange (s c.Id) 0 (-1)) GoMap.empty

/-! ## `docker-hipache.go` -/

/-- The `range hostPort` loop of the stop handler over the entries `visit`, in that order. -/
def removeRoutes (h : Hipache) : List (String × String) → Store → Except String Store
  | [], s => .ok s
  | (host, port) :: rest, s =>
    match h.RemoveRoute host port s with
    | .error err => .error err
    | .ok s1 => removeRoutes h rest s1

/-- The handler `setupHandlers` registers under `"stop"`. -/
def stopHandler (h : Hipache) : Handler := fun c s =>
  match h.FetchRoutes c s with
  | .error err => .error err
  | .ok hostPort => removeRoutes h hostPort.entries s

/-- Function `setupHandlers`: the handlers by event status. -/
def setupHandlers (h : Hipache) : GoMap Handler :=
  ⟨[("start", h.AddRoute), ("stop", stopHandler h)], by simp⟩

/-- The inner loop of `initRoutes` over the hostnames of one rule. -/
def initHostnames (h : Hipache) : List String → Store → Except String Store
  | [], s => .ok s
  | hostname :: rest, s =>
    match h.CreateRoute hostname s with
    | .error err => .error err
    | .ok s1 => initHostnames h rest s1

/-- The outer loop of `initRoutes` over the rules. -/
def initRules (h : Hipache) : List (String × RouteHost) → Store → Except String Store
  | [], s => .ok s
  | (_, route) :: rest, s =>
    match initHostnames h route.Hostnames s with
    | .error err => .error err
    | .ok s1 => initRules h rest s1

/-- Function `initRoutes`: `CreateRoute` for every hostname of every rule. -/
def initRoutes (config : Config) (h : Hipache) (s : Store) : Except String Store :=
  initRules h config.Routes.entries s

/-- What the remote API answers to one `GET`: the status code, and the result of decoding the
body as the JSON of a `Container`. -/
structure Response where
  StatusCode : Nat
  Body : Except String Container

/-- URL requested by `inspectContainer`:
`fmt.Sprintf("%s/containers/%s/json", config.DockerApi)`, the base URL being the only
operand. -/
def inspectURL (_id : String) (config : Config) : String :=
  Sprintf "%s/containers/%s/json" [config.DockerApi]

/-- Function `inspectContainer`, `get` being `c.Get` for this request.  The `%d` of the last
message renders the status code in decimal. -/
def inspectContainer (id image : String) (get : String → Except String Response)
    (config : Config) : Except String Container :=
  match get (inspectURL id config) with
  | .error err => .error err
  | .ok res =>
    if res.StatusCode = 200 then
      match res.Body with
      | .error err => .error err
      | .ok container => .ok { container with Image := image }
    else .error ("Invalid status code from api: " ++ toString res.StatusCode)

/-- How the event loop of `main` ended: the store it left, and the message of the
`log.Fatalf` that ended the process, if one did. -/
structure Outcome where
  store : Store
  fatal : Option String

/-- The event loop of `main` over the decoded events up to end of stream.  `client n` is
`c.Get` for the request number `n` of the run; `n` counts the requests made so far.
`log.Fatalf` logs and exits the process, so the `continue` after it is never reached. -/
def eventLoop (h : Hipache) (client : Nat → String → Except String Response)
    (config : Config) : List Event → Nat → Store → Outcome
  | [], _, s => ⟨s, none⟩
  | event :: rest, n, s =>
    match (setupHandlers h).get? event.Status with
    | some handler =>
      match inspectContainer event.ContainerId event.Image (client n) config with
      | .error err => ⟨s, some (Sprintf "Could not inspect container: %s" [err])⟩
      | .ok container =>
        match handler container s with
        | .error err =>
          ⟨s, some (Sprintf "Could not handle event. Id: %s, Image: %s, Error: %s"
            [event.ContainerId, event.Image, err])⟩
        | .ok s1 => eventLoop h client config rest (n + 1) s1
    | none => eventLoop h client config rest n s

/-! ## `main.go`, the single-file variant of the same program

`Event`, `Container`, `NetworkSettings` and `Response` are shared with the embedding of
`docker-hipache.go` (`main.go` names the id field of `Event` `Id` and the hostnames of a rule
`Hostname`). -/

namespace MainGo

structure RouteHost where
  Hostname : List String
  Port : String

structure RouteConfig where
  RedisServer : String
  DockerApi : String
  Routes : GoMap RouteHost

/-- Function `inspectContainer` of `main.go`: `none` is the `nil` it returns after a failed
`GET` or a status other than `200`; an error is the `log.Fatal` on a body that does not
decode, which ends the process. -/
def inspectContainer (_id image : String) (get : String → Except String Response)
    (config : RouteConfig) : Except String (Option Container) :=
  match get (Sprintf "%s/containers/%s/json" [config.DockerApi]) with
  | .error _ => .ok none
  | .ok res =>
    if res.StatusCode = 200 then
      match res.Body with
      | .error err => .error err
      | .ok container => .ok (some { container with Image := image })
    else .ok none

/-- The commands `notify` queues for one matching port. -/
def notifyQueue (container : Container) (publicPort : String) : List String → List Command
  | [] => []
  | hostname :: rest =>
    .RPUSH (Sprintf "frontend:%s" [hostname]) (Sprintf "http://localhost:%s" [publicPort])
      :: .RPUSH container.Id (Sprintf (hostname ++ ":%s") [publicPort])
      :: notifyQueue container publicPort rest

/-- The `range ports` loop of `notify`. -/
def notifyLoop (routes : RouteConfig) (container : Container) :
    List (String × String) → Store → Store
  | [], s => s
  | (privatePort, publicPort) :: rest, s =>
    match routes.Routes.get? container.Image with
    | some route =>
      if privatePort = route.Port then
        notifyLoop routes container rest
          (exec (notifyQueue container publicPort route.Hostname) s)
      else notifyLoop routes container rest s
    | none => notifyLoop routes container rest s

/-- Function `notify` of `main.go`. -/
def notify (routes : RouteConfig) (container : Container) (s : Store) : Store :=
  match container.NetworkSettings with
  | some settings =>
    match settings.PortMapping with
    | some portMapping =>
      match portMapping.get? "Tcp" with
      | some ports => notifyLoop routes container ports.entries s
      | none => s
    | none => s
  | none => s

/-- The loop of `stop` over the `LRANGE` reply: one `LREM` for every element.  The error is
the runtime panic of `stale[1]` on an element with no `":"`. -/
def stopLoop : List String → Store → Except String Store
  | [], s => .ok s
  | val :: rest, s =>
    let stale := Split val ':'
    if stale.length < 2 then .error "index out of range [1] with length 1"
    else
      stopLoop rest
        ((Command.LREM (Sprintf "frontend:%s" [stale.getD 0 ""]) (-1)
          (Sprintf "http://localhost:%s" [stale.getD 1 ""])).apply s)

/-- Function `stop` of `main.go`. -/
def stop (container : Container) (s : Store) : Except String Store :=
  stopLoop (lrange (s container.Id) 0 (-1)) s

/-- The event loop of `main` in `main.go`; `client n` is `c.Get` for the request number
`n`. -/
def eventLoop (routes : RouteConfig) (client : Nat → String → Except String Response) :
    List Event → Nat → Store → Outcome
  | [], _, s => ⟨s, none⟩
  | event :: rest, n, s =>
    if event.Status = "start" then
      match inspectContainer event.ContainerId event.Image (client n) routes with
      | .error err => ⟨s, some err⟩
      | .ok (some container) => eventLoop routes client rest (n + 1) (notify routes container s)
      | .ok none => eventLoop routes client rest (n + 1) s
    else if event.Status = "stop" then
      match inspectContainer event.ContainerId event.Image (client n) routes with
      | .error err => ⟨s, some err⟩
      | .ok (some container) =>
        match stop container s with
        | .error err => ⟨s, some err⟩
        | .ok s1 => eventLoop routes client rest (n + 1) s1
      | .ok none => eventLoop routes client rest (n + 1) s
    else eventLoop routes client rest n s

end MainGo

/-! ## Observations used in the statements -/

/-- The list a run left at `key`; `none` when the run ended in an error. -/
def listAt (r : Except String Store) (key : String) : Option (List String) :=
  match r with
  | .ok s => some (s key)
  | .error _ => none

/-- The entries of the map a call of `FetchRoutes` returned; `none` when it returned an
error. -/
def entriesOf (r : Except String (GoMap String)) : Option (List (String × String)) :=
  match r with
  | .ok m => some m.entries
  | .error _ => none

/-- What the queue of `sendRoute` appends to the list at `key`, in order. -/
def pushesAt (c : Container) (publicPort key : String) : List String → List String
  | [] => []
  | hostname :: rest =>
    (if key = frontendKey hostname then [targetURL publicPort] else [])
      ++ (if key = c.Id then [historyEntry hostname publicPort] else [])
      ++ pushesAt c publicPort key rest

/-- Number of elements by which the list at `key` is longer in `s1` than in `s`. -/
def appendedAt (s s1 : Store) (key : String) : Nat := (s1 key).length - (s key).length

/-- The list at `key` after `AddRoute(c)` followed by the stop handler on `c`; `none` when
one of the two returned an error. -/
def afterStartStop (h : Hipache) (c : Container) (s : Store) (key : String) :
    Option (List String) :=
  listAt (h.AddRoute c s >>= stopHandler h c) key

/-! ## Example data -/

/-- The store with no key. -/
def emptyStore : Store := fun _ => []

/-- Rule of the image `web`: hostname `a.example.com`, private port `80`. -/
def exampleHipache : Hipache :=
  ⟨⟨[("web", ⟨["a.example.com"], "80"⟩)], by decide⟩⟩

/-- Container `c1` of image `web`, Tcp mapping `80 -> 49001`. -/
def exampleContainer : Container :=
  ⟨"c1", "web", none,
    some ⟨"172.17.0.2", some ⟨[("Tcp", ⟨[("80", "49001")], by decide⟩)], by decide⟩⟩⟩

/-- The store right after `initRoutes`: the frontend entry holds its identity element. -/
def exampleStore : Store :=
  fun k => if k = "frontend:a.example.com" then ["a.example.com"] else []

/-- A frontend entry in which two containers registered the same target around another
one. -/
def twoTargetsStore : Store :=
  fun k =>
    if k = "frontend:a.example.com" then
      ["a.example.com", "http://localhost:49001", "http://localhost:49002",
        "http://localhost:49001"]
    else []

/-- A history whose only record has two `":"` (three components). -/
def threePartsStore : Store :=
  fun k => if k = "c1" then ["a.example.com:49001:tcp"] else []

/-- A history with a record that has no `":"`. -/
def noColonStore : Store :=
  fun k => if k = "c1" then ["a.example.com:49001", "a.example.com"] else []

/-- Container `c1` again, after it died and was started anew: Tcp mapping `80 -> 49002`. -/
def restartedContainer : Container :=
  ⟨"c1", "web", none,
    some ⟨"172.17.0.3", some ⟨[("Tcp", ⟨[("80", "49002")], by decide⟩)], by decide⟩⟩⟩

/-- The store after two `start` events of `c1` with no `stop` in between (the container died
and was started again on another public port). -/
def twoStartsStore : Store :=
  fun k =>
    if k = "frontend:a.example.com" then
      ["a.example.com", "http://localhost:49001", "http://localhost:49002"]
    else if k = "c1" then ["a.example.com:49001", "a.example.com:49002"]
    else []

/-- Configuration of the example: the rule of `exampleHipache`. -/
def exampleConfig : Config :=
  ⟨"tcp", "127.0.0.1:6379", "http://127.0.0.1:4243", exampleHipache.routes⟩

/-- A remote API whose first request of the run fails and whose later requests answer `200`
with the JSON of container `c1` (in which `Image` is the image id). -/
def flakyClient : Nat → String → Except String Response :=
  fun n _ =>
    if n = 0 then .error "dial tcp 127.0.0.1:4243: connection refused"
    else .ok ⟨200, .ok { exampleContainer with Image := "b750fe79269d" }⟩

/-- A container of image `web` whose id is the frontend key of `b.example.com`. -/
def aliasContainer : Container :=
  ⟨"frontend:b.example.com", "web", none,
    some ⟨"172.17.0.4", some ⟨[("Tcp", ⟨[("80", "49001")], by decide⟩)], by decide⟩⟩⟩

/-- A container of an image that has no rule. -/
def unmanagedContainer : Container :=
  ⟨"c9", "redis", none,
    some ⟨"172.17.0.9",
      some ⟨[("Tcp", ⟨[("6379", "49009")], by decide⟩)], by decide⟩⟩⟩

/-- Rule of the image `web` with two hostnames, private port `80`. -/
def twoHostsHipache : Hipache :=
  ⟨⟨[("web", ⟨["a.example.com", "b.example.com"], "80"⟩)], by decide⟩⟩

/-- The store right after `initRoutes` for `twoHostsHipache`. -/
def twoHostsStore : Store :=
  fun k =>
    if k = "frontend:a.example.com" then ["a.example.com"]
    else if k = "frontend:b.example.com" then ["b.example.com"]
    else []

/-- A container of image `web` whose id is the frontend key of `a.example.com`. -/
def aliasRuleContainer : Container :=
  ⟨"frontend:a.example.com", "web", none,
    some ⟨"172.17.0.5", some ⟨[("Tcp", ⟨[("80", "49001")], by decide⟩)], by decide⟩⟩⟩

/-- A store in which `c1` has the record of an earlier run and another container is
registered under the same hostname. -/
def earlierRunStore : Store :=
  fun k =>
    if k = "frontend:a.example.com" then ["a.example.com", "http://localhost:49005"]
    else if k = "c1" then ["a.example.com:49000"]
    else []

/-- Rule of the image `web` whose hostname carries a port, `example.com:8080`. -/
def colonHipache : Hipache :=
  ⟨⟨[("web", ⟨["example.com:8080"], "80"⟩)], by decide⟩⟩

/-- A store in which the list at `c1` holds an element with no `":"`. -/
def strayRecordStore : Store :=
  fun k =>
    if k = "frontend:a.example.com" then ["a.example.com"]
    else if k = "c1" then ["a.example.com"]
    else []

/-- A container of image `web` whose id is the frontend key of its own hostname. -/
def selfAliasContainer : Container :=
  ⟨"frontend:a.example.com", "web", none,
    some ⟨"172.17.0.6", some ⟨[("Tcp", ⟨[("80", "49001")], by decide⟩)], by decide⟩⟩⟩

/-- The configuration of `exampleConfig` as `main.go` declares it. -/
def exampleRouteConfig : MainGo.RouteConfig :=
  ⟨"127.0.0.1:6379", "http://127.0.0.1:4243",
    ⟨[("web", ⟨["a.example.com"], "80"⟩)], by decide⟩⟩

/-- Rule of the image `web` that lists the hostname `a.example.com` twice. -/
def twiceHipache : Hipache :=
  ⟨⟨[("web", ⟨["a.example.com", "a.example.com"], "80"⟩)], by decide⟩⟩

/-- Container `c1` with a Tcp mapping whose public side carries an address. -/
def addressPortContainer : Container :=
  ⟨"c1", "web", none,
    some ⟨"172.17.0.7",
      some ⟨[("Tcp", ⟨[("80", "127.0.0.1:49001")], by decide⟩)], by decide⟩⟩⟩

/-! # Theorems -/

/-! ## Basic facts -/

theorem frontendKey_eq (hostname : String) : frontendKey hostname = "frontend:" ++ hostname := by
  apply String.ext
  simp [frontendKey, Sprintf, sprintfAux, String.data_append]

theorem targetURL_eq (publicPort : String) :
    targetURL publicPort = "http://localhost:" ++ publicPort := by
  apply String.ext
  simp [targetURL, Sprintf, sprintfAux, String.data_append]

theorem historyEntry_eq (hostname publicPort : String) :
    historyEntry hostname publicPort = hostname ++ ":" ++ publicPort := by
  apply String.ext
  simp [historyEntry, Sprintf, sprintfAux, String.data_append]

theorem frontendKey_inj {a b : String} (h : frontendKey a = frontendKey b) : a = b := by
  rw [frontendKey_eq, frontendKey_eq] at h
  have h2 := congrArg String.data h
  simp only [String.data_append] at h2
  exact String.ext (List.append_cancel_left h2)

theorem put_same (s : Store) (key : String) (l : List String) : (s.put key l) key = l := by
  simp [Store.put]

theorem put_other (s : Store) (key k : String) (l : List String) (h : k ≠ key) :
    (s.put key l) k = s k := by
  simp [Store.put, h]

theorem put_self (s : Store) (key : String) : s.put key (s key) = s := by
  funext k
  by_cases h : k = key
  · simp [Store.put, h]
  · simp [Store.put, h]

theorem lrange_all (l : List String) : lrange l 0 (-1) = l := by
  unfold lrange
  cases l with
  | nil => simp
  | cons x xs =>
    have h1 : ¬ ((((x :: xs).length : Nat) : Int) + (-1) < 0) := by
      simp only [List.length_cons]; omega
    have h2 : (((((x :: xs).length : Nat) : Int) + (-1) - 0 + 1).toNat) = (x :: xs).length := by
      simp only [List.length_cons]; omega
    simp only [lt_self_iff_false, if_false, Int.reduceNeg, Int.reduceLT, if_true, h1,
      Int.toNat_zero, List.drop_zero, h2, List.take_length]

theorem removeFirstN_one (v : String) (l : List String) : removeFirstN v 1 l = l.erase v := by
  induction l with
  | nil => simp [removeFirstN]
  | cons x xs ih =>
    by_cases h : x = v
    · simp [removeFirstN, h]
    · have h2 : (x == v) = false := by simpa using h
      simp [removeFirstN, h, ih, List.erase_cons, h2]

theorem lrem_neg_one (v : String) (l : List String) :
    lrem (-1) v l = (l.reverse.erase v).reverse := by
  simp [lrem, removeFirstN_one]

theorem lrem_neg_one_of_not_mem (v : String) (l : List String) (h : v ∉ l) :
    lrem (-1) v l = l := by
  rw [lrem_neg_one, List.erase_of_not_mem (by simpa using h), List.reverse_reverse]

theorem lrem_neg_one_last (v : String) (pre post : List String) (h : v ∉ post) :
    lrem (-1) v (pre ++ v :: post) = pre ++ post := by
  rw [lrem_neg_one]
  have h1 : (pre ++ v :: post).reverse = post.reverse ++ v :: pre.reverse := by simp
  rw [h1, List.erase_append_right _ (by simpa using h)]
  simp

theorem lrem_neg_one_push (v : String) (l : List String) : lrem (-1) v (l ++ [v]) = l := by
  simpa using lrem_neg_one_last v l [] (by simp)

theorem lrem_neg_one_count (v : String) (l : List String) :
    (lrem (-1) v l).count v = l.count v - 1 := by
  rw [lrem_neg_one, List.count_reverse, List.count_erase_self, List.count_reverse]

/-! ## `RemoveRoute` -/

/-- C2, as amended: `RemoveRoute(hostname, publicPort)` always succeeds and leaves at
`frontend:<hostname>` the list with the LAST occurrence of `http://localhost:<publicPort>`
removed, every other element kept in order: the list is unchanged when it does not hold the
URL, it is `pre ++ post` when it was `pre ++ url :: post` with no `url` in `post`, and it holds
the URL once less than before. -/
theorem removeRoute_removes_last_occurrence (h : Hipache) (s : Store)
    (hostname publicPort : String) :
    ∃ s1, h.RemoveRoute hostname publicPort s = .ok s1 ∧
      s1 ("frontend:" ++ hostname)
        = ((s ("frontend:" ++ hostname)).reverse.erase
            ("http://localhost:" ++ publicPort)).reverse ∧
      (∀ pre post,
        s ("frontend:" ++ hostname) = pre ++ ("http://localhost:" ++ publicPort) :: post →
        ("http://localhost:" ++ publicPort) ∉ post →
        s1 ("frontend:" ++ hostname) = pre ++ post) ∧
      (("http://localhost:" ++ publicPort) ∉ s ("frontend:" ++ hostname) →
        s1 ("frontend:" ++ hostname) = s ("frontend:" ++ hostname)) ∧
      (s1 ("frontend:" ++ hostname)).count ("http://localhost:" ++ publicPort)
        = (s ("frontend:" ++ hostname)).count ("http://localhost:" ++ publicPort) - 1 := by
  refine ⟨_, rfl, ?_, ?_, ?_, ?_⟩
  · simp only [Command.apply, frontendKey_eq, targetURL_eq, put_same, lrem_neg_one]
  · intro pre post hl hpost
    simp only [Command.apply, frontendKey_eq, targetURL_eq, put_same, hl]
    exact lrem_neg_one_last _ pre post hpost
  · intro hnot
    simp only [Command.apply, frontendKey_eq, targetURL_eq, put_same]
    exact lrem_neg_one_of_not_mem _ _ hnot
  · simp only [Command.apply, frontendKey_eq, targetURL_eq, put_same]
    exact lrem_neg_one_count _ _

/-- C2, witness: on the entry `[id, u, w, u]` the amended statement gives `[id, u, w]`. -/
theorem removeRoute_removes_last_occurrence_witness :
    listAt (exampleHipache.RemoveRoute "a.example.com" "49001" twoTargetsStore)
        "frontend:a.example.com"
      = some ["a.example.com", "http://localhost:49001", "http://localhost:49002"] := by
  obtain ⟨s1, h1, _, h3, _, _⟩ :=
    removeRoute_removes_last_occurrence exampleHipache twoTargetsStore "a.example.com" "49001"
  have h4 := h3 ["a.example.com", "http://localhost:49001", "http://localhost:49002"] []
    (by decide) (by decide)
  rw [h1]
  simpa [listAt] using h4

/-- C2, counterexample: on the entry `[id, u, w, u]` the code leaves `[id, u, w]`, while the
list with the FIRST occurrence of `u` removed is `[id, w, u]`. -/
theorem removeRoute_first_occurrence_counterexample :
    listAt (exampleHipache.RemoveRoute "a.example.com" "49001" twoTargetsStore)
        "frontend:a.example.com"
      = some ["a.example.com", "http://localhost:49001", "http://localhost:49002"] ∧
    listAt (exampleHipache.RemoveRoute "a.example.com" "49001" twoTargetsStore)
        "frontend:a.example.com"
      ≠ some ((twoTargetsStore "frontend:a.example.com").erase "http://localhost:49001") := by
  decide

/-- C3 (no-op removal): `RemoveRoute(hostname, publicPort)` returns no error, leaves every key
other than `frontend:<hostname>` unchanged, and leaves the whole store unchanged when the list
at `frontend:<hostname>` (empty for an absent key) does not hold
`http://localhost:<publicPort>`. -/
theorem removeRoute_frame (h : Hipache) (s : Store) (hostname publicPort : String) :
    ∃ s1, h.RemoveRoute hostname publicPort s = .ok s1 ∧
      (∀ key, key ≠ "frontend:" ++ hostname → s1 key = s key) ∧
      (("http://localhost:" ++ publicPort) ∉ s ("frontend:" ++ hostname) → s1 = s) := by
  refine ⟨_, rfl, ?_, ?_⟩
  · intro key hkey
    simp only [Command.apply, frontendKey_eq]
    exact put_other _ _ _ _ hkey
  · intro hnot
    simp only [Command.apply, frontendKey_eq, targetURL_eq]
    rw [lrem_neg_one_of_not_mem _ _ hnot]
    exact put_self _ _

/-- C3, witness: removing the target of port `49003`, which the entry does not hold, and
removing from an absent key, both succeed and return the store as it was. -/
theorem removeRoute_frame_witness :
    exampleHipache.RemoveRoute "a.example.com" "49003" twoTargetsStore = .ok twoTargetsStore ∧
    exampleHipache.RemoveRoute "b.example.com" "49001" twoTargetsStore = .ok twoTargetsStore := by
  constructor
  · obtain ⟨s1, h1, _, h3⟩ :=
      removeRoute_frame exampleHipache twoTargetsStore "a.example.com" "49003"
    rw [h1, h3 (by decide)]
  · obtain ⟨s1, h1, _, h3⟩ :=
      removeRoute_frame exampleHipache twoTargetsStore "b.example.com" "49001"
    rw [h1, h3 (by decide)]

/-! ## `CreateRoute` -/

/-- C4 (idempotent init): whatever the store holds, `CreateRoute(H)` succeeds and leaves at
`frontend:H` exactly `[H]`, one identity element and no backend target; a second
`CreateRoute(H)` returns the same store as the first. -/
theorem createRoute_idempotent (h : Hipache) (s : Store) (hostname : String) :
    ∃ s1, h.CreateRoute hostname s = .ok s1 ∧
      s1 ("frontend:" ++ hostname) = [hostname] ∧
      h.CreateRoute hostname s1 = .ok s1 := by
  refine ⟨_, rfl, ?_, ?_⟩
  · simp [exec, Command.apply, frontendKey_eq, put_same]
  · simp only [Hipache.CreateRoute, exec, List.foldl_cons, List.foldl_nil, Command.apply,
      put_same, List.nil_append]
    congr 1
    funext k
    by_cases hk : k = frontendKey hostname
    · simp [Store.put, hk]
    · simp [Store.put, hk]

/-! ## `FetchRoutes` -/

theorem splitChars_ne_nil (sep : Char) (l : List Char) : splitChars sep l ≠ [] := by
  cases l with
  | nil => simp [splitChars]
  | cons ch rest =>
    unfold splitChars
    split
    · simp
    · split <;> simp

theorem splitChars_length (sep : Char) (l : List Char) :
    (splitChars sep l).length = l.count sep + 1 := by
  induction l with
  | nil => simp [splitChars]
  | cons ch rest ih =>
    unfold splitChars
    by_cases hc : ch = sep
    · simp [hc, ih]
    · have hc2 : (ch == sep) = false := by simpa using hc
      simp only [hc, if_false, List.count_cons, hc2, Bool.false_eq_true, add_zero]
      split
      · rename_i heq
        exact absurd heq (splitChars_ne_nil sep rest)
      · rename_i piece pieces heq
        rw [heq] at ih
        simpa using ih

theorem split_length (v : String) (sep : Char) :
    (Split v sep).length = v.data.count sep + 1 := by
  simp [Split, splitChars_length]

theorem split_short_iff (v : String) : (Split v ':').length < 2 ↔ ':' ∉ v.data := by
  rw [split_length, ← List.count_eq_zero]
  omega

theorem fetchLoop_error_iff (reply : List String) (out : GoMap String) :
    (∃ err, fetchLoop reply out = .error err) ↔ ∃ v ∈ reply, ':' ∉ v.data := by
  induction reply generalizing out with
  | nil => simp [fetchLoop]
  | cons v rest ih =>
    by_cases hv : (Split v ':').length < 2
    · have hv2 := (split_short_iff v).1 hv
      simp only [fetchLoop, hv, if_true]
      exact ⟨fun _ => ⟨v, List.mem_cons_self _ _, hv2⟩, fun _ => ⟨_, rfl⟩⟩
    · have hv2 : ¬ ':' ∉ v.data := fun h => hv ((split_short_iff v).2 h)
      simp only [fetchLoop, hv, if_false, ih, List.mem_cons]
      constructor
      · rintro ⟨w, hw, hw2⟩
        exact ⟨w, Or.inr hw, hw2⟩
      · rintro ⟨w, hw | hw, hw2⟩
        · exact absurd (hw ▸ hw2) hv2
        · exact ⟨w, hw, hw2⟩

/-- C7, as amended: `FetchRoutes(c)` returns an error (and no map) exactly when some record
stored at `c.Id` contains no `":"`; a record with two or more `":"` is not rejected. -/
theorem fetchRoutes_error_iff (h : Hipache) (c : Container) (s : Store) :
    (∃ err, h.FetchRoutes c s = .error err) ↔ ∃ v ∈ s c.Id, ':' ∉ v.data := by
  simp only [Hipache.FetchRoutes, lrange_all]
  exact fetchLoop_error_iff _ _

/-- C7, witness: a history with the record `a.example.com` makes `FetchRoutes` fail. -/
theorem fetchRoutes_error_witness :
    ∃ err, exampleHipache.FetchRoutes exampleContainer noColonStore = .error err :=
  (fetchRoutes_error_iff exampleHipache exampleContainer noColonStore).2
    ⟨"a.example.com", by decide, by decide⟩

/-- C7, counterexample: the record `a.example.com:49001:tcp` holds two `":"`, so it does not
split into exactly a hostname and a port, yet `FetchRoutes` returns the map
`a.example.com -> 49001` and no error. -/
theorem fetchRoutes_three_parts_counterexample :
    (threePartsStore exampleContainer.Id = ["a.example.com:49001:tcp"] ∧
      (Split "a.example.com:49001:tcp" ':').length = 3) ∧
    entriesOf (exampleHipache.FetchRoutes exampleContainer threePartsStore)
      = some [("a.example.com", "49001")] := by
  decide

/-- C8, the code at the failing input: after two starts of `c1` the history holds the two
records `a.example.com:49001` and `a.example.com:49002`, both well formed; `FetchRoutes`
returns a map with the single entry `a.example.com -> 49002`, so the pair
`(a.example.com, 49001)` is not in the result, the stop handler calls `RemoveRoute` once for a
history of length two, and the target of port `49001` stays in the frontend entry.  On the
same store `stop` of `main.go`, which ranges over the reply itself, removes both targets.
Likewise for a rule that lists its hostname twice: one start appends two targets and two
records, the stop handler removes one target. -/
theorem fetchRoutes_keeps_last_port_per_hostname :
    (listAt (exampleHipache.AddRoute exampleContainer exampleStore
        >>= exampleHipache.AddRoute restartedContainer) "c1" = some (twoStartsStore "c1") ∧
      listAt (exampleHipache.AddRoute exampleContainer exampleStore
        >>= exampleHipache.AddRoute restartedContainer) "frontend:a.example.com"
        = some (twoStartsStore "frontend:a.example.com")) ∧
    (twoStartsStore restartedContainer.Id = ["a.example.com:49001", "a.example.com:49002"] ∧
      entriesOf (exampleHipache.FetchRoutes restartedContainer twoStartsStore)
        = some [("a.example.com", "49002")] ∧
      listAt (stopHandler exampleHipache restartedContainer twoStartsStore)
          "frontend:a.example.com"
        = some ["a.example.com", "http://localhost:49001"]) ∧
    listAt (MainGo.stop restartedContainer twoStartsStore) "frontend:a.example.com"
      = some ["a.example.com"] ∧
    (listAt (twiceHipache.AddRoute exampleContainer exampleStore) "c1"
        = some ["a.example.com:49001", "a.example.com:49001"] ∧
      listAt (twiceHipache.AddRoute exampleContainer exampleStore) "frontend:a.example.com"
        = some ["a.example.com", "http://localhost:49001", "http://localhost:49001"] ∧
      afterStartStop twiceHipache exampleContainer exampleStore "frontend:a.example.com"
        = some ["a.example.com", "http://localhost:49001"]) := by
  decide

/-! ## `inspectContainer` and the event loop -/

/-- C9, the code on every input: the URL `inspectContainer` requests is the base URL followed
by `/containers/%!s(MISSING)/json`; the container id is not an operand of the `Sprintf`, so
the requests for two container ids are the same. -/
theorem inspectURL_ignores_id (id id2 : String) (config : Config) :
    inspectURL id config = config.DockerApi ++ "/containers/%!s(MISSING)/json" ∧
      inspectURL id config = inspectURL id2 config := by
  refine ⟨?_, rfl⟩
  apply String.ext
  simp [inspectURL, Sprintf, sprintfAux, String.data_append]

/-- C10, the code on every input: when the status of an event has a handler and the inspect
of its container fails, the loop of `docker-hipache.go` ends at that event with the message of
`log.Fatalf` and the store as it was, whatever events follow: none of them is processed. -/
theorem eventLoop_stops_at_inspect_failure (h : Hipache)
    (client : Nat → String → Except String Response) (config : Config) (event : Event)
    (rest : List Event) (n : Nat) (s : Store) (handler : Handler) (err : String)
    (hhandler : (setupHandlers h).get? event.Status = some handler)
    (hinspect :
      inspectContainer event.ContainerId event.Image (client n) config = .error err) :
    eventLoop h client config (event :: rest) n s
      = ⟨s, some (Sprintf "Could not inspect container: %s" [err])⟩ := by
  simp only [eventLoop, hhandler, hinspect]

/-- C10, the failing input: the inspect of the first of two `start` events fails.  The loop
ends there with the store untouched; the second event, which alone (with the requests that
succeed) registers the target of port `49001`, is never processed.  The loop of `main.go`
skips the first event and processes the second. -/
theorem eventLoop_stops_at_inspect_failure_witness :
    eventLoop exampleHipache flakyClient exampleConfig
        [⟨"c0", "start", "web"⟩, ⟨"c1", "start", "web"⟩] 0 exampleStore
      = ⟨exampleStore,
          some "Could not inspect container: dial tcp 127.0.0.1:4243: connection refused"⟩ ∧
    ((eventLoop exampleHipache (fun n => flakyClient (n + 1)) exampleConfig
          [⟨"c1", "start", "web"⟩] 0 exampleStore).fatal = none ∧
      (eventLoop exampleHipache (fun n => flakyClient (n + 1)) exampleConfig
          [⟨"c1", "start", "web"⟩] 0 exampleStore).store "frontend:a.example.com"
        = ["a.example.com", "http://localhost:49001"]) ∧
    ((MainGo.eventLoop exampleRouteConfig flakyClient
          [⟨"c0", "start", "web"⟩, ⟨"c1", "start", "web"⟩] 0 exampleStore).fatal = none ∧
      (MainGo.eventLoop exampleRouteConfig flakyClient
          [⟨"c0", "start", "web"⟩, ⟨"c1", "start", "web"⟩] 0 exampleStore).store
          "frontend:a.example.com"
        = ["a.example.com", "http://localhost:49001"]) := by
  refine ⟨?_, by decide, by decide⟩
  rw [eventLoop_stops_at_inspect_failure exampleHipache flakyClient exampleConfig
    ⟨"c0", "start", "web"⟩ [⟨"c1", "start", "web"⟩] 0 exampleStore exampleHipache.AddRoute
    "dial tcp 127.0.0.1:4243: connection refused" rfl rfl]
  congr 1

/-! ## `AddRoute` -/

theorem exec_sendRoute (c : Container) (P : String) (hs : List String) (s : Store)
    (key : String) : exec (sendRoute c P hs) s key = s key ++ pushesAt c P key hs := by
  induction hs generalizing s with
  | nil => simp [sendRoute, exec, pushesAt]
  | cons H rest ih =>
    have h3 := ih ((Command.RPUSH c.Id (historyEntry H P)).apply
      ((Command.RPUSH (frontendKey H) (targetURL P)).apply s))
    simp only [exec] at h3
    simp only [sendRoute, exec, List.foldl_cons, h3]
    clear h3 ih
    simp only [Command.apply, Store.put, pushesAt]
    by_cases h1 : key = frontendKey H
    · subst h1
      by_cases h2 : frontendKey H = c.Id
      · simp [h2]
      · have h4 : ¬ c.Id = frontendKey H := fun h5 => h2 h5.symm
        simp [h2, h4]
    · by_cases h2 : key = c.Id
      · subst h2
        simp [h1]
      · simp [h1, h2]

theorem pushesAt_other (c : Container) (P key : String) (hs : List String)
    (h1 : key ≠ c.Id) (h2 : ∀ H ∈ hs, key ≠ frontendKey H) : pushesAt c P key hs = [] := by
  induction hs with
  | nil => rfl
  | cons H rest ih =>
    have h3 := h2 H (List.mem_cons_self _ _)
    have h4 := ih (fun H2 hH2 => h2 H2 (List.mem_cons_of_mem _ hH2))
    simp [pushesAt, h1, h3, h4]

theorem pushesAt_history (c : Container) (P : String) (hs : List String)
    (h2 : ∀ H ∈ hs, c.Id ≠ frontendKey H) :
    pushesAt c P c.Id hs = hs.map (fun H => historyEntry H P) := by
  induction hs with
  | nil => rfl
  | cons H rest ih =>
    have h3 := h2 H (List.mem_cons_self _ _)
    have h4 := ih (fun H2 hH2 => h2 H2 (List.mem_cons_of_mem _ hH2))
    simp [pushesAt, h3, h4]

theorem pushesAt_frontend (c : Container) (P H : String) (hs : List String)
    (h2 : c.Id ≠ frontendKey H) :
    pushesAt c P (frontendKey H) hs = List.replicate (hs.count H) (targetURL P) := by
  induction hs with
  | nil => rfl
  | cons H2 rest ih =>
    have h3 : ¬ frontendKey H = c.Id := fun h => h2 h.symm
    by_cases h4 : H2 = H
    · subst h4
      simp [pushesAt, h3, ih, List.replicate_succ]
    · have h5 : ¬ frontendKey H = frontendKey H2 := fun h => h4 (frontendKey_inj h).symm
      have h6 : (H2 == H) = false := by simpa using h4
      simp [pushesAt, h3, ih, h5, List.count_cons, h6]

theorem pushesAt_mem (c : Container) (P H : String) (hs : List String) (hH : H ∈ hs) :
    targetURL P ∈ pushesAt c P (frontendKey H) hs ∧
      historyEntry H P ∈ pushesAt c P c.Id hs := by
  induction hs with
  | nil => simp at hH
  | cons H2 rest ih =>
    rcases List.mem_cons.1 hH with h1 | h1
    · subst h1
      simp [pushesAt]
    · have h2 := ih h1
      simp only [pushesAt, List.mem_append]
      exact ⟨Or.inr h2.1, Or.inr h2.2⟩

theorem lookupEntry_eq_none {β : Type} (k : String) (es : List (String × β)) :
    lookupEntry k es = none ↔ k ∉ es.map Prod.fst := by
  induction es with
  | nil => simp [lookupEntry]
  | cons e es ih =>
    by_cases h : e.1 = k
    · simp [lookupEntry, h]
    · have h2 : ¬ k = e.1 := fun h3 => h h3.symm
      simp [lookupEntry, h, ih, h2]

theorem containsRoute_of_rule (h : Hipache) (c : Container) (R : RouteHost)
    (hR : h.routes.get? c.Image = some R) (p : String) :
    h.containsRoute c p = if R.Port = p then some R else none := by
  simp [Hipache.containsRoute, hR]

theorem addRouteLoop_no_rule (h : Hipache) (c : Container)
    (hR : h.routes.get? c.Image = none) (entries : List (String × String)) (s : Store) :
    addRouteLoop h c entries s = s := by
  induction entries generalizing s with
  | nil => rfl
  | cons e rest ih =>
    obtain ⟨p, q⟩ := e
    simp [addRouteLoop, Hipache.containsRoute, hR, ih]

theorem addRouteLoop_no_port (h : Hipache) (c : Container) (R : RouteHost)
    (hR : h.routes.get? c.Image = some R) (entries : List (String × String))
    (hp : R.Port ∉ entries.map Prod.fst) (s : Store) : addRouteLoop h c entries s = s := by
  induction entries generalizing s with
  | nil => rfl
  | cons e rest ih =>
    obtain ⟨p, q⟩ := e
    simp only [List.map_cons, List.mem_cons, not_or] at hp
    simp [addRouteLoop, containsRoute_of_rule h c R hR, hp.1, ih hp.2]

theorem addRouteLoop_match (h : Hipache) (c : Container) (R : RouteHost)
    (hR : h.routes.get? c.Image = some R) (entries : List (String × String))
    (hnd : (entries.map Prod.fst).Nodup) (P : String)
    (hP : lookupEntry R.Port entries = some P) (s : Store) :
    addRouteLoop h c entries s = exec (sendRoute c P R.Hostnames) s := by
  induction entries generalizing s with
  | nil => simp [lookupEntry] at hP
  | cons e rest ih =>
    obtain ⟨p, q⟩ := e
    simp only [List.map_cons, List.nodup_cons] at hnd
    by_cases hpq : p = R.Port
    · subst hpq
      simp only [lookupEntry, if_true, Option.some.injEq] at hP
      subst hP
      simp only [addRouteLoop, containsRoute_of_rule h c R hR, if_true]
      exact addRouteLoop_no_port h c R hR rest hnd.1 _
    · have hpq2 : ¬ R.Port = p := fun h3 => hpq h3.symm
      simp only [lookupEntry, hpq, if_false] at hP
      simp only [addRouteLoop, containsRoute_of_rule h c R hR, hpq2, if_false]
      exact ih hnd.2 hP s

theorem addRoute_of_match (h : Hipache) (c : Container) (s : Store) (R : RouteHost)
    (ports : GoMap String) (P : String) (hR : h.routes.get? c.Image = some R)
    (hports : getTcpPorts c = some ports) (hP : ports.get? R.Port = some P) :
    h.AddRoute c s = .ok (exec (sendRoute c P R.Hostnames) s) := by
  simp only [Hipache.AddRoute, hports]
  rw [addRouteLoop_match h c R hR ports.entries ports.nodup P hP s]

theorem addRoute_of_no_match (h : Hipache) (c : Container) (s : Store)
    (hno : h.routes.get? c.Image = none ∨ getTcpPorts c = none ∨
      ∃ R ports, h.routes.get? c.Image = some R ∧ getTcpPorts c = some ports ∧
        ports.get? R.Port = none) :
    h.AddRoute c s = .ok s := by
  rcases hno with hR | hports | ⟨R, ports, hR, hports, hP⟩
  · cases hports : getTcpPorts c with
    | none => simp [Hipache.AddRoute, hports]
    | some ports => simp [Hipache.AddRoute, hports, addRouteLoop_no_rule h c hR]
  · simp [Hipache.AddRoute, hports]
  · simp only [Hipache.AddRoute, hports]
    rw [addRouteLoop_no_port h c R hR ports.entries ((lookupEntry_eq_none _ _).1 hP)]

/-- C6, as amended: `AddRoute(c)` returns no error, and it changes the list at a key only if
the image of `c` has a rule whose port is a private port of the Tcp mapping of `c` and the
key is `frontend:H` for a hostname `H` of that rule or is the history key `c.Id`.  So a key
`frontend:H` other than `c.Id` changes only if `H` is a hostname of the rule.  When the image
has no rule, or `c` has no Tcp port mapping, or no Tcp private port is the port of the rule,
the store is unchanged. -/
theorem addRoute_footprint (h : Hipache) (c : Container) (s : Store) :
    ∃ s1, h.AddRoute c s = .ok s1 ∧
      (∀ key, s1 key ≠ s key →
        ∃ R ports P, h.routes.get? c.Image = some R ∧ getTcpPorts c = some ports ∧
          ports.get? R.Port = some P ∧
          (key = c.Id ∨ ∃ H ∈ R.Hostnames, key = "frontend:" ++ H)) ∧
      (∀ H, s1 ("frontend:" ++ H) ≠ s ("frontend:" ++ H) → c.Id ≠ "frontend:" ++ H →
        ∃ R ports P, h.routes.get? c.Image = some R ∧ getTcpPorts c = some ports ∧
          ports.get? R.Port = some P ∧ H ∈ R.Hostnames) ∧
      ((h.routes.get? c.Image = none ∨ getTcpPorts c = none ∨
          ∃ R ports, h.routes.get? c.Image = some R ∧ getTcpPorts c = some ports ∧
            ports.get? R.Port = none) → s1 = s) := by
  have key_fact : ∀ s1, h.AddRoute c s = .ok s1 → ∀ key, s1 key ≠ s key →
      ∃ R ports P, h.routes.get? c.Image = some R ∧ getTcpPorts c = some ports ∧
        ports.get? R.Port = some P ∧
        (key = c.Id ∨ ∃ H ∈ R.Hostnames, key = "frontend:" ++ H) := by
    intro s1 hs1 key hne
    cases hports : getTcpPorts c with
    | none =>
      rw [addRoute_of_no_match h c s (Or.inr (Or.inl hports))] at hs1
      cases hs1
      exact absurd rfl hne
    | some ports =>
      cases hR : h.routes.get? c.Image with
      | none =>
        rw [addRoute_of_no_match h c s (Or.inl hR)] at hs1
        cases hs1
        exact absurd rfl hne
      | some R =>
        cases hP : ports.get? R.Port with
        | none =>
          rw [addRoute_of_no_match h c s (Or.inr (Or.inr ⟨R, ports, hR, hports, hP⟩))] at hs1
          cases hs1
          exact absurd rfl hne
        | some P =>
          refine ⟨R, ports, P, rfl, rfl, hP, ?_⟩
          rw [addRoute_of_match h c s R ports P hR hports hP] at hs1
          cases hs1
          by_contra hcon
          push_neg at hcon
          apply hne
          rw [exec_sendRoute, pushesAt_other c P key R.Hostnames hcon.1
            (fun H hH => by rw [frontendKey_eq]; exact hcon.2 H hH)]
          simp
  cases hrun : h.AddRoute c s with
  | error err =>
    cases hports : getTcpPorts c <;> simp [Hipache.AddRoute, hports] at hrun
  | ok s1 =>
    refine ⟨s1, rfl, key_fact s1 hrun, ?_, ?_⟩
    · intro H hne hid
      obtain ⟨R, ports, P, hR, hports, hP, hkey⟩ := key_fact s1 hrun _ hne
      refine ⟨R, ports, P, hR, hports, hP, ?_⟩
      rcases hkey with hkey | ⟨H2, hH2, hkey⟩
      · exact absurd hkey.symm hid
      · rw [← frontendKey_eq, ← frontendKey_eq] at hkey
        rw [frontendKey_inj hkey]
        exact hH2
    · intro hno
      rw [addRoute_of_no_match h c s hno] at hrun
      cases hrun
      rfl

/-- C6, witness: the image `redis` has no rule, so `AddRoute` returns the store as it was;
and the start of `c1` changes `frontend:a.example.com`, a hostname of the rule of `web`. -/
theorem addRoute_footprint_witness :
    exampleHipache.AddRoute unmanagedContainer exampleStore = .ok exampleStore ∧
    listAt (exampleHipache.AddRoute exampleContainer exampleStore) "frontend:a.example.com"
      = some ["a.example.com", "http://localhost:49001"] := by
  constructor
  · obtain ⟨s1, h1, _, _, h4⟩ :=
      addRoute_footprint exampleHipache unmanagedContainer exampleStore
    rw [h1, h4 (Or.inl rfl)]
  · decide

/-- C6, counterexample: the only hostname of the rule of `web` is `a.example.com`, yet
`AddRoute` of a container of image `web` whose id is `frontend:b.example.com` changes the list
at the key `frontend:b.example.com` from empty to `[a.example.com:49001]`. -/
theorem addRoute_changes_other_frontend_key_counterexample :
    (exampleHipache.routes.get? aliasContainer.Image).map RouteHost.Hostnames
      = some ["a.example.com"] ∧
    exampleStore "frontend:b.example.com" = [] ∧
    listAt (exampleHipache.AddRoute aliasContainer exampleStore) "frontend:b.example.com"
      = some ["a.example.com:49001"] := by
  decide

/-- C5, as amended: when the image of `c` has the rule `R`, the Tcp mapping of `c` maps
`R.Port` to `P` and `AddRoute(c)` returns no error, then for every hostname `H` of `R` the list
at `frontend:H` contains `http://localhost:P` and the list at `c.Id` contains `H:P`.  Provided
`c.Id` is none of the keys `frontend:H` of the rule, the history grew by exactly the records
`H:P` in the order of the rule, each `frontend:H` grew by one target per occurrence of `H` in
the rule, and the number of elements appended to the frontend lists of the rule equals the
number appended to the history list, one of each per hostname. -/
theorem addRoute_pairs (h : Hipache) (c : Container) (s s1 : Store) (R : RouteHost)
    (ports : GoMap String) (P : String) (hR : h.routes.get? c.Image = some R)
    (hports : getTcpPorts c = some ports) (hP : ports.get? R.Port = some P)
    (hok : h.AddRoute c s = .ok s1) :
    (∀ H ∈ R.Hostnames,
      ("http://localhost:" ++ P) ∈ s1 ("frontend:" ++ H) ∧ (H ++ ":" ++ P) ∈ s1 c.Id) ∧
    ((∀ H ∈ R.Hostnames, c.Id ≠ "frontend:" ++ H) →
      s1 c.Id = s c.Id ++ R.Hostnames.map (fun H => H ++ ":" ++ P) ∧
      (∀ H ∈ R.Hostnames, s1 ("frontend:" ++ H)
        = s ("frontend:" ++ H)
          ++ List.replicate (R.Hostnames.count H) ("http://localhost:" ++ P)) ∧
      (R.Hostnames.dedup.map (fun H => appendedAt s s1 ("frontend:" ++ H))).sum
        = appendedAt s s1 c.Id ∧
      appendedAt s s1 c.Id = R.Hostnames.length) := by
  rw [addRoute_of_match h c s R ports P hR hports hP] at hok
  cases hok
  constructor
  · intro H hH
    have h1 := pushesAt_mem c P H R.Hostnames hH
    rw [← frontendKey_eq, ← targetURL_eq, ← historyEntry_eq, exec_sendRoute, exec_sendRoute]
    exact ⟨List.mem_append_right _ h1.1, List.mem_append_right _ h1.2⟩
  · intro hid
    have hid2 : ∀ H ∈ R.Hostnames, c.Id ≠ frontendKey H := fun H hH => by
      rw [frontendKey_eq]; exact hid H hH
    have hhist : exec (sendRoute c P R.Hostnames) s c.Id
        = s c.Id ++ R.Hostnames.map (fun H => H ++ ":" ++ P) := by
      rw [exec_sendRoute, pushesAt_history c P R.Hostnames hid2]
      simp only [historyEntry_eq]
    have hfront : ∀ H ∈ R.Hostnames, exec (sendRoute c P R.Hostnames) s ("frontend:" ++ H)
        = s ("frontend:" ++ H)
          ++ List.replicate (R.Hostnames.count H) ("http://localhost:" ++ P) := by
      intro H hH
      rw [← frontendKey_eq, ← targetURL_eq, exec_sendRoute,
        pushesAt_frontend c P H R.Hostnames (hid2 H hH)]
    have hlen : appendedAt s (exec (sendRoute c P R.Hostnames) s) c.Id
        = R.Hostnames.length := by
      simp [appendedAt, hhist]
    refine ⟨hhist, hfront, ?_, hlen⟩
    rw [hlen]
    have hmap : R.Hostnames.dedup.map
          (fun H => appendedAt s (exec (sendRoute c P R.Hostnames) s) ("frontend:" ++ H))
        = R.Hostnames.dedup.map (fun H => R.Hostnames.count H) := by
      apply List.map_congr_left
      intro H hH
      simp [appendedAt, hfront H (List.mem_dedup.1 hH)]
    rw [hmap]
    exact List.sum_map_count_dedup_eq_length R.Hostnames

/-- C5, witness: the start of `c1` (image `web`, Tcp mapping `80 -> 49001`) on the store left
by `initRoutes`. -/
theorem addRoute_pairs_witness :
    ("http://localhost:49001"
        ∈ exec (sendRoute exampleContainer "49001" ["a.example.com"]) exampleStore
            "frontend:a.example.com" ∧
      "a.example.com:49001"
        ∈ exec (sendRoute exampleContainer "49001" ["a.example.com"]) exampleStore "c1") ∧
    appendedAt exampleStore
      (exec (sendRoute exampleContainer "49001" ["a.example.com"]) exampleStore) "c1" = 1 := by
  have hall := addRoute_pairs exampleHipache exampleContainer exampleStore
    (exec (sendRoute exampleContainer "49001" ["a.example.com"]) exampleStore)
    ⟨["a.example.com"], "80"⟩ ⟨[("80", "49001")], by decide⟩ "49001" rfl rfl rfl rfl
  refine ⟨hall.1 "a.example.com" (by decide), ?_⟩
  exact (hall.2 (by decide)).2.2.2

/-- C5, counterexample: the rule of `web` has the hostnames `a.example.com` and
`b.example.com`, and the id of the container is `frontend:a.example.com`.  `AddRoute` appends
three elements to `frontend:a.example.com` and one to `frontend:b.example.com`, four elements
to frontend lists, while the history list of the container, the list at its id, grew by
three. -/
theorem addRoute_pairs_alias_counterexample :
    ∃ s1, twoHostsHipache.AddRoute aliasRuleContainer twoHostsStore = .ok s1 ∧
      s1 "frontend:a.example.com"
        = ["a.example.com", "http://localhost:49001", "a.example.com:49001",
            "b.example.com:49001"] ∧
      s1 "frontend:b.example.com" = ["b.example.com", "http://localhost:49001"] ∧
      appendedAt twoHostsStore s1 "frontend:a.example.com"
        + appendedAt twoHostsStore s1 "frontend:b.example.com" = 4 ∧
      appendedAt twoHostsStore s1 aliasRuleContainer.Id = 3 :=
  ⟨_, rfl, by decide, by decide, by decide, by decide⟩

/-! ## Start followed by stop -/

theorem splitChars_of_not_mem (sep : Char) (l : List Char) (h : sep ∉ l) :
    splitChars sep l = [l] := by
  induction l with
  | nil => rfl
  | cons ch rest ih =>
    simp only [List.mem_cons, not_or] at h
    have h1 : ¬ ch = sep := fun h2 => h.1 h2.symm
    simp [splitChars, h1, ih h.2]

theorem splitChars_append (sep : Char) (a b : List Char) (h : sep ∉ a) :
    splitChars sep (a ++ sep :: b) = a :: splitChars sep b := by
  induction a with
  | nil => simp [splitChars]
  | cons ch rest ih =>
    simp only [List.mem_cons, not_or] at h
    have h1 : ¬ ch = sep := fun h2 => h.1 h2.symm
    simp [splitChars, h1, ih h.2]

theorem split_historyEntry (H P : String) (hH : ':' ∉ H.data) (hP : ':' ∉ P.data) :
    Split (historyEntry H P) ':' = [H, P] := by
  have h1 : (historyEntry H P).data = H.data ++ ':' :: P.data := by
    rw [historyEntry_eq]
    simp [String.data_append]
  simp [Split, h1, splitChars_append ':' H.data P.data hH, splitChars_of_not_mem ':' P.data hP]

theorem fetchLoop_append (l1 l2 : List String) (out m1 : GoMap String)
    (h : fetchLoop l1 out = .ok m1) : fetchLoop (l1 ++ l2) out = fetchLoop l2 m1 := by
  induction l1 generalizing out with
  | nil =>
    simp only [fetchLoop, Except.ok.injEq] at h
    simp [h]
  | cons v rest ih =>
    by_cases hv : (Split v ':').length < 2
    · simp [fetchLoop, hv] at h
    · simp only [fetchLoop, hv, if_false] at h
      simp only [List.cons_append, fetchLoop, hv, if_false]
      exact ih _ h

theorem fetchLoop_ok (l : List String) (out : GoMap String) (h : ∀ v ∈ l, ':' ∈ v.data) :
    ∃ m, fetchLoop l out = .ok m := by
  cases hrun : fetchLoop l out with
  | ok m => exact ⟨m, rfl⟩
  | error err =>
    obtain ⟨v, hv, hv2⟩ := (fetchLoop_error_iff l out).1 ⟨err, hrun⟩
    exact absurd (h v hv) hv2

theorem fetchLoop_records (hs : List String) (P : String) (out : GoMap String)
    (hH : ∀ H ∈ hs, ':' ∉ H.data) (hP : ':' ∉ P.data) :
    fetchLoop (hs.map (fun H => historyEntry H P)) out
      = .ok (hs.foldl (fun m H => m.set H P) out) := by
  induction hs generalizing out with
  | nil => rfl
  | cons H rest ih =>
    have h1 := split_historyEntry H P (hH H (List.mem_cons_self _ _)) hP
    simp only [List.map_cons, fetchLoop, h1, List.length_cons, List.length_nil, List.foldl_cons]
    simp only [List.getD_cons_zero, List.getD_cons_succ]
    exact ih _ (fun H2 hH2 => hH H2 (List.mem_cons_of_mem _ hH2))

theorem lookupEntry_setEntry {β : Type} (k k2 : String) (v : β) (es : List (String × β)) :
    lookupEntry k2 (setEntry k v es) = if k = k2 then some v else lookupEntry k2 es := by
  induction es with
  | nil => simp [setEntry, lookupEntry]
  | cons e es ih =>
    obtain ⟨k0, v0⟩ := e
    by_cases h : k0 = k
    · subst h
      by_cases h2 : k0 = k2
      · simp [setEntry, lookupEntry, h2]
      · simp [setEntry, lookupEntry, h2]
    · by_cases h2 : k0 = k2
      · subst h2
        have h3 : ¬ k = k0 := fun h4 => h h4.symm
        simp [setEntry, lookupEntry, h, h3]
      · simp [setEntry, lookupEntry, h, h2, ih]

theorem get?_foldl_set (hs : List String) (P : String) (out : GoMap String) (H : String)
    (hH : H ∈ hs) : (hs.foldl (fun m H2 => m.set H2 P) out).get? H = some P := by
  induction hs using List.reverseRecOn with
  | nil => simp at hH
  | append_singleton rest H0 ih =>
    simp only [List.foldl_append, List.foldl_cons, List.foldl_nil, GoMap.get?, GoMap.set,
      lookupEntry_setEntry]
    by_cases h1 : H0 = H
    · simp [h1]
    · simp only [h1, if_false]
      have h2 : H ∈ rest := by
        rcases List.mem_append.1 hH with h3 | h3
        · exact h3
        · exact absurd (List.mem_singleton.1 h3).symm h1
      exact ih h2

theorem lookupEntry_eq_some_iff {β : Type} (k : String) (v : β) (es : List (String × β))
    (hnd : (es.map Prod.fst).Nodup) : lookupEntry k es = some v ↔ (k, v) ∈ es := by
  induction es with
  | nil => simp [lookupEntry]
  | cons e es ih =>
    obtain ⟨k0, v0⟩ := e
    simp only [List.map_cons, List.nodup_cons] at hnd
    by_cases h : k0 = k
    · subst h
      simp only [lookupEntry, if_true, Option.some.injEq, List.mem_cons, Prod.mk.injEq, true_and]
      constructor
      · intro h1
        exact Or.inl h1.symm
      · rintro (h1 | h1)
        · exact h1.symm
        · exact absurd (List.mem_map_of_mem Prod.fst h1) hnd.1
    · have h2 : ¬ k = k0 := fun h3 => h h3.symm
      simp [lookupEntry, h, ih hnd.2, h2]

theorem removeRoutes_spec (h : Hipache) (visit : List (String × String))
    (hnd : (visit.map Prod.fst).Nodup) (s : Store) :
    ∃ s2, removeRoutes h visit s = .ok s2 ∧
      ∀ H, s2 (frontendKey H) =
        match lookupEntry H visit with
        | some p => lrem (-1) (targetURL p) (s (frontendKey H))
        | none => s (frontendKey H) := by
  induction visit generalizing s with
  | nil => exact ⟨s, rfl, fun H => rfl⟩
  | cons e rest ih =>
    obtain ⟨host, port⟩ := e
    simp only [List.map_cons, List.nodup_cons] at hnd
    obtain ⟨s2, h1, h2⟩ := ih hnd.2
      ((Command.LREM (frontendKey host) (-1) (targetURL port)).apply s)
    refine ⟨s2, ?_, ?_⟩
    · simp only [removeRoutes, Hipache.RemoveRoute]
      exact h1
    · intro H
      rw [h2 H]
      by_cases h3 : host = H
      · subst h3
        have h4 : lookupEntry host rest = none := (lookupEntry_eq_none _ _).2 hnd.1
        simp [lookupEntry, h4, Command.apply, put_same]
      · have h5 : frontendKey H ≠ frontendKey host := fun h6 => h3 (frontendKey_inj h6).symm
        simp only [lookupEntry, h3, if_false, Command.apply, put_other _ _ _ _ h5]

/-- C1, as amended: let the image of `c` have the rule `R` and the Tcp mapping of `c` map
`R.Port` to `P`.  If the hostnames of `R` are pairwise distinct and free of `":"`, `P` is free
of `":"`, every record already stored at `c.Id` contains a `":"`, and `c.Id` is none of the
keys `frontend:H` of the rule, then `AddRoute(c)` succeeds, `FetchRoutes(c)` succeeds on the
resulting store, and the `RemoveRoute` calls of the stop handler, in whatever order `visit`
the `range` statement visits the returned map, succeed and leave at `frontend:H`, for every
hostname `H` of `R`, the list that was there before `AddRoute`; `AddRoute` and that handler
are what `setupHandlers` registers under `"start"` and `"stop"`. -/
theorem start_stop_round_trip (h : Hipache) (c : Container) (s : Store) (R : RouteHost)
    (ports : GoMap String) (P : String) (hR : h.routes.get? c.Image = some R)
    (hports : getTcpPorts c = some ports) (hP : ports.get? R.Port = some P)
    (hdistinct : R.Hostnames.Nodup) (hhost : ∀ H ∈ R.Hostnames, ':' ∉ H.data)
    (hport : ':' ∉ P.data) (hhist : ∀ v ∈ s c.Id, ':' ∈ v.data)
    (hid : ∀ H ∈ R.Hostnames, c.Id ≠ "frontend:" ++ H) :
    ((setupHandlers h).get? "start" = some h.AddRoute ∧
      (setupHandlers h).get? "stop" = some (stopHandler h)) ∧
    ∃ s1 hostPort, h.AddRoute c s = .ok s1 ∧ h.FetchRoutes c s1 = .ok hostPort ∧
      (∀ visit, visit.Perm hostPort.entries →
        ∃ s2, removeRoutes h visit s1 = .ok s2 ∧
          ∀ H ∈ R.Hostnames, s2 ("frontend:" ++ H) = s ("frontend:" ++ H)) ∧
      (∃ s2, stopHandler h c s1 = .ok s2 ∧
        ∀ H ∈ R.Hostnames, s2 ("frontend:" ++ H) = s ("frontend:" ++ H)) := by
  refine ⟨⟨rfl, rfl⟩, ?_⟩
  have hid2 : ∀ H ∈ R.Hostnames, c.Id ≠ frontendKey H := fun H hH => by
    rw [frontendKey_eq]; exact hid H hH
  have hadd := addRoute_of_match h c s R ports P hR hports hP
  have hhist1 : exec (sendRoute c P R.Hostnames) s c.Id
      = s c.Id ++ R.Hostnames.map (fun H => historyEntry H P) := by
    rw [exec_sendRoute, pushesAt_history c P R.Hostnames hid2]
  obtain ⟨m1, hm1⟩ := fetchLoop_ok (s c.Id) GoMap.empty hhist
  have hfetch : h.FetchRoutes c (exec (sendRoute c P R.Hostnames) s)
      = .ok (R.Hostnames.foldl (fun m H => m.set H P) m1) := by
    simp only [Hipache.FetchRoutes, lrange_all, hhist1]
    rw [fetchLoop_append _ _ _ _ hm1, fetchLoop_records _ _ _ hhost hport]
  have hround : ∀ visit, visit.Perm (R.Hostnames.foldl (fun m H => m.set H P) m1).entries →
      ∃ s2, removeRoutes h visit (exec (sendRoute c P R.Hostnames) s) = .ok s2 ∧
        ∀ H ∈ R.Hostnames, s2 ("frontend:" ++ H) = s ("frontend:" ++ H) := by
    intro visit hperm
    have hnd : (visit.map Prod.fst).Nodup :=
      (hperm.map Prod.fst).nodup_iff.2 (R.Hostnames.foldl (fun m H => m.set H P) m1).nodup
    obtain ⟨s2, h1, h2⟩ := removeRoutes_spec h visit hnd (exec (sendRoute c P R.Hostnames) s)
    refine ⟨s2, h1, ?_⟩
    intro H hH
    have hget : lookupEntry H (R.Hostnames.foldl (fun m H => m.set H P) m1).entries = some P :=
      get?_foldl_set R.Hostnames P m1 H hH
    have hmem := (lookupEntry_eq_some_iff H P _ (GoMap.nodup _)).1 hget
    have hlook : lookupEntry H visit = some P :=
      (lookupEntry_eq_some_iff H P visit hnd).2 (hperm.mem_iff.2 hmem)
    rw [← frontendKey_eq, h2 H, hlook]
    simp only
    rw [exec_sendRoute, pushesAt_frontend c P H _ (hid2 H hH),
      List.count_eq_one_of_mem hdistinct hH]
    exact lrem_neg_one_push _ _
  refine ⟨_, _, hadd, hfetch, hround, ?_⟩
  obtain ⟨s2, h1, h2⟩ := hround _ (List.Perm.refl _)
  exact ⟨s2, by simp only [stopHandler, hfetch, h1], h2⟩

/-- C1, witness: `c1` starts and stops on a store that already holds a record of an earlier
run of `c1` and the target of another container; the frontend entry is back to what it
was. -/
theorem start_stop_round_trip_witness :
    afterStartStop exampleHipache exampleContainer earlierRunStore "frontend:a.example.com"
      = some ["a.example.com", "http://localhost:49005"] := by
  obtain ⟨_, s1, hostPort, h1, _, _, s2, h4, h5⟩ :=
    start_stop_round_trip exampleHipache exampleContainer earlierRunStore
      ⟨["a.example.com"], "80"⟩ ⟨[("80", "49001")], by decide⟩ "49001" rfl rfl rfl
      (by decide) (by decide) (by decide) (by decide) (by decide)
  have h6 := h5 "a.example.com" (by decide)
  simp only [afterStartStop, h1, bind, Except.bind, h4, listAt]
  rw [show ("frontend:a.example.com" : String) = "frontend:" ++ "a.example.com" from by decide,
    h6]
  decide

/-- C1, counterexample: four runs of `AddRoute` then the stop handler that do not restore the
frontend entry of a hostname of the rule.  (1) The hostname of the rule is
`example.com:8080`: the record `example.com:8080:49001` splits into `example.com`, `8080`,
`49001`, the stop handler removes `http://localhost:8080` from `frontend:example.com`, and the
target stays in `frontend:example.com:8080`, which was empty.  (2) The list at `c1` already
holds `a.example.com`, an element with no `":"`: `FetchRoutes` fails and the stop handler
returns the error, the target stays.  (3) The id of the container is
`frontend:a.example.com`: history and frontend entry are one list and the record stays in
it.  (4) The public side of the Tcp mapping is `127.0.0.1:49001`: the record splits into
`a.example.com`, `127.0.0.1`, `49001`, the stop handler removes `http://localhost:127.0.0.1`
and the target stays. -/
theorem start_stop_round_trip_counterexample :
    (emptyStore "frontend:example.com:8080" = [] ∧
      listAt (colonHipache.AddRoute exampleContainer emptyStore)
        "frontend:example.com:8080" = some ["http://localhost:49001"] ∧
      afterStartStop colonHipache exampleContainer emptyStore "frontend:example.com:8080"
        = some ["http://localhost:49001"]) ∧
    (strayRecordStore "frontend:a.example.com" = ["a.example.com"] ∧
      listAt (exampleHipache.AddRoute exampleContainer strayRecordStore)
        "frontend:a.example.com" = some ["a.example.com", "http://localhost:49001"] ∧
      afterStartStop exampleHipache exampleContainer strayRecordStore
        "frontend:a.example.com" = none) ∧
    (emptyStore "frontend:a.example.com" = [] ∧
      afterStartStop exampleHipache selfAliasContainer emptyStore "frontend:a.example.com"
        = some ["a.example.com:49001"]) ∧
    (exampleStore "frontend:a.example.com" = ["a.example.com"] ∧
      afterStartStop exampleHipache addressPortContainer exampleStore "frontend:a.example.com"
        = some ["a.example.com", "http://localhost:127.0.0.1:49001"]) := by
  decide

end DockerHipache
